import Mathlib

/-!
Verification of `src/qdoc/qdoc/src/qdoc/qmlvisitor.cpp` (QDoc's QML
documentation visitor).  Each C++ routine that the claims touch is shallowly
embedded as an executable Lean function; external collaborators that are not
part of this file (the tokenizer, `CodeChunk`, the `Doc` comment parser, the
qdoc database, command-name macros) are modelled from the specification and
are marked as such in their doc comments.
-/

set_option autoImplicit false

namespace QmlVisitor

/-! ### Small string helpers (modelling `QString` operations) -/

/-- Whether `pat` occurs at the head of `l` (character-list prefix test). -/
def hasPrefixChars : List Char → List Char → Bool
  | [], _ => true
  | _ :: _, [] => false
  | a :: as, b :: bs => a == b && hasPrefixChars as bs

/-- Whether `pat` occurs anywhere inside `l`. -/
def hasSubChars (pat : List Char) : List Char → Bool
  | [] => pat.isEmpty
  | c :: rest => hasPrefixChars pat (c :: rest) || hasSubChars pat rest

/-- Modelled from the spec: `QString::contains(substring)`. -/
def containsSub (s pat : String) : Bool :=
  hasSubChars pat.data s.data

/-- Modelled from the spec: `QString::endsWith(suffix)`. -/
def endsWithStr (s suf : String) : Bool :=
  hasPrefixChars suf.data.reverse s.data.reverse

/-- Modelled from the spec: `QString::indexOf(QChar)`, returning -1 when the
character does not occur. -/
def indexOfChar (s : String) (ch : Char) : Int :=
  match s.data.findIdx? (fun c => c == ch) with
  | some i => (i : Int)
  | none => -1

/-! ### Comment locator (`QmlDocVisitor::precedingComment`, lines 48-72)

A lexer comment span.  `start`/`stop` are `loc.begin()`/`loc.end()` of the
`QQmlJS::SourceLocation`; `isBlockStar` records the source check
`m_document.at(loc.offset - 1) == QLatin1Char('*')` (block comment rather
than a `//` comment); `body` is `m_document.mid(loc.offset, loc.length)`;
`startLine`/`startColumn` mirror the location fields used for the `Doc`
location. -/
structure SourceComment where
  start : Nat
  stop : Nat
  isBlockStar : Bool
  body : List Char
  startLine : Nat
  startColumn : Nat
deriving DecidableEq

/-- Doc-eligibility test from lines 62-64: a block comment whose body begins
with an exclamation mark or an asterisk. -/
def docEligible (c : SourceComment) : Bool :=
  c.isBlockStar &&
    (match c.body with
     | [] => false
     | ch :: _ => ch == '!' || ch == '*')

/-- The backward scan of lines 51-69, applied to the comment list already
reversed (the C++ code iterates `rbegin()`..`rend()`).  The used-comment set
is modelled as a list of start offsets queried with `contains`. -/
def precedingAux (offset lastEnd : Nat) (used : List Nat) :
    List SourceComment → Option SourceComment
  | [] => none
  | c :: rest =>
    if c.start ≤ lastEnd then none
    else if used.contains c.start then none
    else if lastEnd < c.start ∧ c.stop < offset then
      if docEligible c then some c
      else precedingAux offset lastEnd used rest
    else precedingAux offset lastEnd used rest

/-- `QmlDocVisitor::precedingComment(offset)`: `comments` is
`m_engine->comments()` in source order, `used` is `m_usedComments`, `lastEnd`
is `m_lastEndOffset`. -/
def precedingComment (comments : List SourceComment) (used : List Nat)
    (lastEnd offset : Nat) : Option SourceComment :=
  precedingAux offset lastEnd used comments.reverse

/-- A comment qualifies as the construct's documentation comment. -/
def qualifies (offset lastEnd : Nat) (c : SourceComment) : Prop :=
  lastEnd < c.start ∧ c.stop < offset ∧ docEligible c = true

/-- A comment terminates the backward scan. -/
def stopsScan (lastEnd : Nat) (used : List Nat) (c : SourceComment) : Prop :=
  c.start ≤ lastEnd ∨ used.contains c.start = true

theorem precedingAux_some {offset lastEnd : Nat} {used : List Nat} :
    ∀ {L : List SourceComment} {c : SourceComment},
      precedingAux offset lastEnd used L = some c →
      qualifies offset lastEnd c ∧ used.contains c.start = false ∧
        ∃ pre post, L = pre ++ c :: post ∧
          ∀ d ∈ pre, ¬ stopsScan lastEnd used d ∧ ¬ qualifies offset lastEnd d
  | [], c => by intro h; exact absurd h (by unfold precedingAux; exact Option.noConfusion)
  | c0 :: rest, c => by
    intro h
    unfold precedingAux at h
    by_cases h1 : c0.start ≤ lastEnd
    · rw [if_pos h1] at h; exact absurd h (by exact Option.noConfusion)
    · rw [if_neg h1] at h
      by_cases h2 : used.contains c0.start = true
      · rw [if_pos h2] at h; exact absurd h (by exact Option.noConfusion)
      · rw [if_neg h2] at h
        by_cases h3 : lastEnd < c0.start ∧ c0.stop < offset
        · rw [if_pos h3] at h
          by_cases h4 : docEligible c0 = true
          · rw [if_pos h4] at h
            cases h
            exact ⟨⟨h3.1, h3.2, h4⟩, Bool.eq_false_iff.mpr h2, [], rest, rfl,
              fun d hd => absurd hd (List.not_mem_nil d)⟩
          · rw [if_neg h4] at h
            obtain ⟨hq, hu, pre, post, hL, hpre⟩ := precedingAux_some h
            refine ⟨hq, hu, c0 :: pre, post, by rw [hL, List.cons_append], ?_⟩
            intro d hd
            rcases List.mem_cons.mp hd with rfl | hd'
            · exact ⟨fun hs => hs.elim h1 h2, fun hq' => h4 hq'.2.2⟩
            · exact hpre d hd'
        · rw [if_neg h3] at h
          obtain ⟨hq, hu, pre, post, hL, hpre⟩ := precedingAux_some h
          refine ⟨hq, hu, c0 :: pre, post, by rw [hL, List.cons_append], ?_⟩
          intro d hd
          rcases List.mem_cons.mp hd with rfl | hd'
          · exact ⟨fun hs => hs.elim h1 h2, fun hq' => h3 ⟨hq'.1, hq'.2.1⟩⟩
          · exact hpre d hd'

theorem precedingAux_stop {offset lastEnd : Nat} {used : List Nat} :
    ∀ {pre : List SourceComment} {c : SourceComment} {post : List SourceComment},
      (∀ d ∈ pre, ¬ stopsScan lastEnd used d ∧ ¬ qualifies offset lastEnd d) →
      stopsScan lastEnd used c →
      precedingAux offset lastEnd used (pre ++ c :: post) = none
  | [], c, post => by
    intro _ hstop
    show precedingAux offset lastEnd used (c :: post) = none
    unfold precedingAux
    by_cases h1 : c.start ≤ lastEnd
    · rw [if_pos h1]
    · rw [if_neg h1]
      have h2 : used.contains c.start = true := hstop.resolve_left h1
      rw [if_pos h2]
  | c0 :: pre, c, post => by
    intro hpre hstop
    have h0 := hpre c0 (List.mem_cons_self _ _)
    show precedingAux offset lastEnd used (c0 :: (pre ++ c :: post)) = none
    unfold precedingAux
    have h1 : ¬ c0.start ≤ lastEnd := fun h => h0.1 (Or.inl h)
    have h2 : ¬ used.contains c0.start = true := fun h => h0.1 (Or.inr h)
    rw [if_neg h1, if_neg h2]
    by_cases h3 : lastEnd < c0.start ∧ c0.stop < offset
    · rw [if_pos h3]
      have h4 : ¬ docEligible c0 = true := fun h => h0.2 ⟨h3.1, h3.2, h⟩
      rw [if_neg h4]
      exact precedingAux_stop (fun d hd => hpre d (List.mem_cons_of_mem _ hd)) hstop
    · rw [if_neg h3]
      exact precedingAux_stop (fun d hd => hpre d (List.mem_cons_of_mem _ hd)) hstop

/-- C1: the comment locator returns a comment only if it qualifies
(`last_end < start`, `end < offset`, doc-eligible) and is not yet used; the
returned comment is the first qualifying one scanning backward from the
comment nearest the offset; and the scan returns none as soon as it reaches a
comment whose start is at or before `last_end` or whose start offset is in
the used set (provided no qualifying comment appeared earlier in the
backward scan). -/
theorem locator_first_eligible (comments : List SourceComment) (used : List Nat)
    (lastEnd offset : Nat) :
    (∀ c, precedingComment comments used lastEnd offset = some c →
      qualifies offset lastEnd c ∧ used.contains c.start = false ∧
        ∃ pre post, comments.reverse = pre ++ c :: post ∧
          ∀ d ∈ pre, ¬ stopsScan lastEnd used d ∧ ¬ qualifies offset lastEnd d) ∧
    (∀ pre c post, comments.reverse = pre ++ c :: post →
      (∀ d ∈ pre, ¬ stopsScan lastEnd used d ∧ ¬ qualifies offset lastEnd d) →
      stopsScan lastEnd used c →
      precedingComment comments used lastEnd offset = none) := by
  constructor
  · intro c h
    exact precedingAux_some h
  · intro pre c post hrev hpre hstop
    unfold precedingComment
    rw [hrev]
    exact precedingAux_stop hpre hstop

/-- Witness for C1.  The first half instantiates the nearest-eligible-comment
example of the spec (eligible comment at 20-24, construct at 30, last end 5);
the second half instantiates the stale-comment exclusion example
(`last_end = 25`, comment at 20). -/
theorem locator_first_eligible_witness :
    (qualifies 30 5 ⟨20, 24, true, ['*'], 2, 1⟩ ∧
      ([] : List Nat).contains 20 = false ∧
      ∃ pre post,
        ([⟨20, 24, true, ['*'], 2, 1⟩] : List SourceComment).reverse =
          pre ++ ⟨20, 24, true, ['*'], 2, 1⟩ :: post ∧
        ∀ d ∈ pre, ¬ stopsScan 5 [] d ∧ ¬ qualifies 30 5 d) ∧
    precedingComment [⟨20, 24, true, ['*'], 2, 1⟩] [] 25 30 = none := by
  constructor
  · exact (locator_first_eligible [⟨20, 24, true, ['*'], 2, 1⟩] [] 5 30).1 _ rfl
  · exact (locator_first_eligible [⟨20, 24, true, ['*'], 2, 1⟩] [] 25 30).2
      [] ⟨20, 24, true, ['*'], 2, 1⟩ [] rfl
      (fun d hd => absurd hd (List.not_mem_nil d)) (Or.inl (by norm_num))

/-! ### Data model

The node model is a flat tagged record covering the union of the attributes
the visitor touches (`Node`, `QmlTypeNode`, `QmlPropertyNode`,
`FunctionNode` of node.h/qmlpropertynode.h/functionnode.h, which are
external to this file); the kind tag plays the role of the
`isQmlType`/`isQmlProperty`/`isFunction` dynamic checks. -/

/-- Source location attached to nodes and docs (`Location` of location.h,
external; only `filePath`, the line and the column are relevant here,
defaulting to 0 when never set). -/
structure Loc where
  filePath : String
  line : Nat
  col : Nat
deriving DecidableEq

/-- A `QQmlJS::SourceLocation` of a syntax construct as the visitor uses it:
its begin offset and its start line. -/
structure SrcLoc where
  begin_ : Nat
  startLine : Nat
deriving DecidableEq

inductive Status where
  | active
  | internal_
  | deprecated_
  | preliminary_
deriving DecidableEq

/-- A function parameter (`Parameter` of parameters.h, external): type, name,
default value. -/
structure Parameter where
  ptype : String
  pname : String
  defaultValue : String
deriving DecidableEq

/-- An import record (`ImportRec` of qmlvisitor.h). -/
structure ImportRec where
  moduleName : String
  version : String
  importUri : String
  importId : String
deriving DecidableEq

/-- One topic declaration of a doc comment (`Topic` of topic.h, external):
the topic command name and its raw argument text. -/
structure TopicDecl where
  topic : String
  args : String
deriving DecidableEq

/-- Parsed form of one comment (`Doc` of doc.h, external — modelled from the
spec as the already-parsed topic list and metacommand map; `loc` is the
comment location the visitor builds on lines 127-128). The metacommand map
associates each used command with its ordered argument pairs
(`ArgList` of `(first, second)` pairs). -/
structure DocBlock where
  loc : Loc
  topicsUsed : List TopicDecl
  metas : List (String × List (String × String))
deriving DecidableEq

inductive NodeKind where
  | qmlType
  | qmlProperty
  | qmlSignal
  | qmlMethod
  | other
deriving DecidableEq

structure Node where
  kind : NodeKind
  name : String
  loc : Loc
  doc : Option DocBlock
  /- property attributes -/
  dataType : String
  isAttached : Bool
  readOnly : Bool
  isDefault : Bool
  isRequired : Bool
  isList : Bool
  defaultValue : String
  enumNode : Option (String × String)
  /- type attributes -/
  abstract : Bool
  qmlBaseName : String
  title : String
  importList : List ImportRec
  /- function attributes -/
  returnType : String
  parameters : List Parameter
  /- common attributes -/
  status : Status
  deprecatedReason : String
  since : String
  wrapper : Bool
deriving DecidableEq

def emptyNode : Node :=
  { kind := .other, name := "", loc := ⟨"", 0, 0⟩, doc := none,
    dataType := "", isAttached := false, readOnly := false, isDefault := false,
    isRequired := false, isList := false, defaultValue := "", enumNode := none,
    abstract := false, qmlBaseName := "", title := "", importList := [],
    returnType := "", parameters := [],
    status := .active, deprecatedReason := "", since := "", wrapper := false }

def Node.isQmlType (n : Node) : Bool := n.kind == .qmlType

def Node.isQmlProperty (n : Node) : Bool := n.kind == .qmlProperty

def Node.isFunction (n : Node) : Bool :=
  n.kind == .qmlSignal || n.kind == .qmlMethod

/-- `new QmlTypeNode(m_current, m_name, Node::QmlType)`. -/
def newQmlType (name : String) : Node :=
  { emptyNode with kind := .qmlType, name := name }

/-- A diagnostic emitted through `Location::warning` (the sink is external;
only the emission and its content are modelled). -/
structure Warning where
  loc : Loc
  msg : String
  detail : String
deriving DecidableEq

/-- A structural edit on the external qdoc database
(`QDocDatabase::addToQmlModule` / `addToGroup`); records the argument and
the affected node's name. -/
inductive DbEffect where
  | toModule (moduleName nodeName : String)
  | toGroup (groupName nodeName : String)
deriving DecidableEq

/-! ### Metacommand interpreter (`QmlDocVisitor::applyMetacommands`,
lines 351-420)

The command-name constants below are modelled from the spec: the
`COMMAND_*` macros live in codeparser.h/cppcodeparser.h, outside this file.
Their exact spellings do not affect any claim; each is its own marker. -/

def COMMAND_ABSTRACT : String := "abstract"
def COMMAND_QMLABSTRACT : String := "qmlabstract"
def COMMAND_DEPRECATED : String := "deprecated"
def COMMAND_INQMLMODULE : String := "inqmlmodule"
def COMMAND_QMLINHERITS : String := "qmlinherits"
def COMMAND_DEFAULT : String := "default"
def COMMAND_QMLDEFAULT : String := "qmldefault"
def COMMAND_QMLENUMERATORSFROM : String := "qmlenumeratorsfrom"
def COMMAND_QMLREADONLY : String := "qmlreadonly"
def COMMAND_QMLREQUIRED : String := "qmlrequired"
def COMMAND_INGROUP : String := "ingroup"
def COMMAND_INTERNAL : String := "internal"
def COMMAND_OBSOLETE : String := "obsolete"
def COMMAND_PRELIMINARY : String := "preliminary"
def COMMAND_SINCE : String := "since"
def COMMAND_WRAPPER : String := "wrapper"
def COMMAND_QMLSIGNAL : String := "qmlsignal"
def COMMAND_QMLPROPERTY : String := "qmlproperty"

/-- One iteration of the command loop (lines 357-418).  `resolveEnum` models
`QmlPropertyNode::setEnumNode`'s lookup of a C++ enumeration in the external
database.  `Option.none` models the undefined behaviour of the unguarded
`args[0]` accesses (`QList::operator[]` on an empty list) on lines 364, 366,
368/370/373, 391 and 410; every guarded path returns `some` of the updated
node, the warnings emitted and the database edits requested. -/
def applyCommand (resolveEnum : String → String → Bool) (dloc : Loc)
    (node : Node) (cmd : String) (args : List (String × String)) :
    Option (Node × List Warning × List DbEffect) :=
  if cmd = COMMAND_QMLABSTRACT ∨ cmd = COMMAND_ABSTRACT then
    some (if node.isQmlType then { node with abstract := true } else node, [], [])
  else if cmd = COMMAND_DEPRECATED then
    match args.head? with
    | none => none
    | some a => some ({ node with deprecatedReason := a.2 }, [], [])
  else if cmd = COMMAND_INQMLMODULE then
    match args.head? with
    | none => none
    | some a => some (node, [], [.toModule a.1 node.name])
  else if cmd = COMMAND_QMLINHERITS then
    match args.head? with
    | none => none
    | some a =>
      if node.name = a.1 then
        some (node, [⟨dloc, a.1 ++ " tries to inherit itself", ""⟩], [])
      else if node.isQmlType then
        some ({ node with qmlBaseName := a.1 }, [], [])
      else
        some (node, [], [])
  else if cmd = COMMAND_DEFAULT then
    if node.isQmlProperty then
      match args with
      | [] =>
        some (node,
          [⟨dloc, "Expected an argument for '\\" ++ cmd ++ "' (maybe you meant '\\"
                    ++ COMMAND_QMLDEFAULT ++ "'?)", ""⟩], [])
      | a :: _ =>
        if a.1 = "" then
          some (node,
            [⟨dloc, "Expected an argument for '\\" ++ cmd ++ "' (maybe you meant '\\"
                      ++ COMMAND_QMLDEFAULT ++ "'?)", ""⟩], [])
        else
          some ({ node with defaultValue := a.1 }, [], [])
    else
      some (node,
        [⟨dloc, "Ignored '\\" ++ cmd ++ "', applies only to '\\"
                  ++ COMMAND_QMLPROPERTY ++ "'", ""⟩], [])
  else if cmd = COMMAND_QMLDEFAULT then
    some ({ node with isDefault := true }, [], [])
  else if cmd = COMMAND_QMLENUMERATORSFROM then
    if node.isQmlProperty then
      match args.head? with
      | none => none
      | some a =>
        if resolveEnum a.1 a.2 then
          some ({ node with enumNode := some (a.1, a.2) }, [], [])
        else
          some (node,
            [⟨dloc, "Failed to find C++ enumeration '" ++ a.1 ++ "' passed to \\" ++ cmd,
              "Use \\value commands instead"⟩], [])
    else
      some (node,
        [⟨dloc, "Ignored '\\" ++ cmd ++ "', applies only to '\\"
                  ++ COMMAND_QMLPROPERTY ++ "'", ""⟩], [])
  else if cmd = COMMAND_QMLREADONLY then
    some ({ node with readOnly := true }, [], [])
  else if cmd = COMMAND_QMLREQUIRED then
    some (if node.isQmlProperty then { node with isRequired := true } else node, [], [])
  else if cmd = COMMAND_INGROUP ∧ args ≠ [] then
    some (node, [], args.map (fun a => .toGroup a.1 node.name))
  else if cmd = COMMAND_INTERNAL then
    some ({ node with status := .internal_ }, [], [])
  else if cmd = COMMAND_OBSOLETE then
    some ({ node with status := .deprecated_ }, [], [])
  else if cmd = COMMAND_PRELIMINARY then
    some ({ node with status := .preliminary_ }, [], [])
  else if cmd = COMMAND_SINCE then
    match args.head? with
    | none => none
    | some a => some ({ node with since := a.1 }, [], [])
  else if cmd = COMMAND_WRAPPER then
    some ({ node with wrapper := true }, [], [])
  else
    some (node, [⟨dloc, "The \\" ++ cmd ++ " command is ignored in QML files", ""⟩], [])

/-- The command loop of lines 357-418.  The `QSet` iteration is modelled as a
list of `(command, args)` entries processed in the given order (the set's
iteration order is unspecified upstream; command names are distinct after
the set collapses duplicates). -/
def runMetacommands (resolveEnum : String → String → Bool) (dloc : Loc)
    (node : Node) :
    List (String × List (String × String)) →
    Option (Node × List Warning × List DbEffect)
  | [] => some (node, [], [])
  | (cmd, args) :: rest =>
    match applyCommand resolveEnum dloc node cmd args with
    | none => none
    | some (n', w, e) =>
      match runMetacommands resolveEnum dloc n' rest with
      | none => none
      | some (n'', w', e') => some (n'', w ++ w', e ++ e')

/-- `applyMetacommands(loc, node, doc)`: take the used metacommands, subtract
the topic names (line 356), and run the loop. -/
def applyMetacommands (resolveEnum : String → String → Bool)
    (topics : List String) (doc : DocBlock) (node : Node) :
    Option (Node × List Warning × List DbEffect) :=
  runMetacommands resolveEnum doc.loc node
    (doc.metas.filter (fun m => !(topics.contains m.1)))

/-- A QML method node, a QML property node and a QML type node used as
concrete inputs. -/
def nodeM : Node := { emptyNode with kind := .qmlMethod, name := "m" }

def nodeP : Node := { emptyNode with kind := .qmlProperty, name := "p" }

def nodeT : Node := { emptyNode with kind := .qmlType, name := "T" }

/-- C4 counterexample: `\qmlabstract` applied to a method node (not a type)
produces no warning at all — the command is silently skipped (lines 359-362
have no else branch) and processing continues with the next command
(`\since` still takes effect).  The claim requires a warning carrying the
command name here. -/
theorem metacommand_warning_cex :
    runMetacommands (fun _ _ => false) ⟨"file.qml", 3, 1⟩ nodeM
      [(COMMAND_QMLABSTRACT, [("", "")]), (COMMAND_SINCE, [("6.5", "")])] =
      some ({ nodeM with since := "6.5" }, [], []) := by decide

/-- C4 (amended): precondition failures never abort the loop, but only some
of them warn: `\default` and `\qmlenumeratorsfrom` on a non-property emit a
warning carrying the command name and the doc location and processing
continues; `\abstract`/`\qmlabstract` on a non-type and `\qmlrequired` on a
non-property are silently skipped, with no warning, and processing
continues. -/
theorem metacommand_precondition_behavior (R : String → String → Bool)
    (dloc : Loc) (n : Node) (args : List (String × String))
    (rest : List (String × List (String × String))) :
    (n.isQmlType = false →
      runMetacommands R dloc n ((COMMAND_QMLABSTRACT, args) :: rest) =
        runMetacommands R dloc n rest) ∧
    (n.isQmlProperty = false →
      runMetacommands R dloc n ((COMMAND_QMLREQUIRED, args) :: rest) =
        runMetacommands R dloc n rest) ∧
    (n.isQmlProperty = false →
      runMetacommands R dloc n ((COMMAND_DEFAULT, args) :: rest) =
        (runMetacommands R dloc n rest).map (fun r =>
          (r.1, ⟨dloc, "Ignored '\\default', applies only to '\\qmlproperty'", ""⟩
                  :: r.2.1, r.2.2))) ∧
    (n.isQmlProperty = false →
      runMetacommands R dloc n ((COMMAND_QMLENUMERATORSFROM, args) :: rest) =
        (runMetacommands R dloc n rest).map (fun r =>
          (r.1, ⟨dloc, "Ignored '\\qmlenumeratorsfrom', applies only to '\\qmlproperty'", ""⟩
                  :: r.2.1, r.2.2))) := by
  refine ⟨fun h => ?_, fun h => ?_, fun h => ?_, fun h => ?_⟩
  · show (match applyCommand R dloc n COMMAND_QMLABSTRACT args with
          | none => none
          | some (n', w, e) =>
            match runMetacommands R dloc n' rest with
            | none => none
            | some (n'', w', e') => some (n'', w ++ w', e ++ e')) = _
    unfold applyCommand
    rw [if_pos (Or.inl rfl), if_neg (by simp [h])]
    cases hr : runMetacommands R dloc n rest with
    | none => simp [hr]
    | some r => obtain ⟨n2, w2, e2⟩ := r; simp [hr]
  · show (match applyCommand R dloc n COMMAND_QMLREQUIRED args with
          | none => none
          | some (n', w, e) =>
            match runMetacommands R dloc n' rest with
            | none => none
            | some (n'', w', e') => some (n'', w ++ w', e ++ e')) = _
    unfold applyCommand
    rw [if_neg (by decide), if_neg (by decide), if_neg (by decide),
      if_neg (by decide), if_neg (by decide), if_neg (by decide),
      if_neg (by decide), if_neg (by decide), if_pos rfl, if_neg (by simp [h])]
    cases hr : runMetacommands R dloc n rest with
    | none => simp [hr]
    | some r => obtain ⟨n2, w2, e2⟩ := r; simp [hr]
  · show (match applyCommand R dloc n COMMAND_DEFAULT args with
          | none => none
          | some (n', w, e) =>
            match runMetacommands R dloc n' rest with
            | none => none
            | some (n'', w', e') => some (n'', w ++ w', e ++ e')) = _
    unfold applyCommand
    rw [if_neg (by decide), if_neg (by decide), if_neg (by decide),
      if_neg (by decide), if_pos rfl, if_neg (by simp [h])]
    cases hr : runMetacommands R dloc n rest with
    | none => simp [hr]
    | some r => obtain ⟨n2, w2, e2⟩ := r; simp [hr]; decide
  · show (match applyCommand R dloc n COMMAND_QMLENUMERATORSFROM args with
          | none => none
          | some (n', w, e) =>
            match runMetacommands R dloc n' rest with
            | none => none
            | some (n'', w', e') => some (n'', w ++ w', e ++ e')) = _
    unfold applyCommand
    rw [if_neg (by decide), if_neg (by decide), if_neg (by decide),
      if_neg (by decide), if_neg (by decide), if_neg (by decide),
      if_pos rfl, if_neg (by simp [h])]
    cases hr : runMetacommands R dloc n rest with
    | none => simp [hr]
    | some r => obtain ⟨n2, w2, e2⟩ := r; simp [hr]; decide

/-- Witness for the amended C4 at concrete inputs: on a method node,
`\qmlabstract` is skipped silently and `\default` warns, in both cases
continuing with the remaining (empty) command list. -/
theorem metacommand_precondition_behavior_witness :
    runMetacommands (fun _ _ => false) ⟨"file.qml", 3, 1⟩ nodeM
      [(COMMAND_QMLABSTRACT, [("", "")])] =
      runMetacommands (fun _ _ => false) ⟨"file.qml", 3, 1⟩ nodeM [] ∧
    runMetacommands (fun _ _ => false) ⟨"file.qml", 3, 1⟩ nodeM
      [(COMMAND_DEFAULT, [("", "")])] =
      (runMetacommands (fun _ _ => false) ⟨"file.qml", 3, 1⟩ nodeM []).map (fun r =>
        (r.1, ⟨⟨"file.qml", 3, 1⟩,
               "Ignored '\\default', applies only to '\\qmlproperty'", ""⟩
                :: r.2.1, r.2.2)) :=
  ⟨(metacommand_precondition_behavior _ _ _ _ _).1 (by decide),
   (metacommand_precondition_behavior _ _ _ _ _).2.2.1 (by decide)⟩

/-- C5 counterexample: `\deprecated` with an empty argument list reaches the
unguarded `args[0]` access of line 364 — modelled as `none` (out-of-bounds
indexing of an empty `QList`), so the interpreter does not continue. -/
theorem empty_args_oob_cex :
    applyCommand (fun _ _ => false) ⟨"file.qml", 3, 1⟩ nodeM
      COMMAND_DEPRECATED [] = none := by decide

/-- C5 (amended): `\deprecated`, `\inqmlmodule`, `\qmlinherits` and `\since`
index `args[0]` unconditionally, so an empty argument list is an
out-of-bounds access (modelled as `none`); `\qmlenumeratorsfrom` does so
only once the node is a property (a non-property warns first and never
touches the arguments); only `\default` and `\ingroup` guard against the
empty list (`\default` warns, `\ingroup` falls through to the
unknown-command warning). -/
theorem empty_args_behavior (R : String → String → Bool) (dloc : Loc) (n : Node) :
    applyCommand R dloc n COMMAND_DEPRECATED [] = none ∧
    applyCommand R dloc n COMMAND_INQMLMODULE [] = none ∧
    applyCommand R dloc n COMMAND_QMLINHERITS [] = none ∧
    applyCommand R dloc n COMMAND_SINCE [] = none ∧
    (n.isQmlProperty = true →
      applyCommand R dloc n COMMAND_QMLENUMERATORSFROM [] = none) ∧
    (n.isQmlProperty = true →
      applyCommand R dloc n COMMAND_DEFAULT [] =
        some (n, [⟨dloc,
          "Expected an argument for '\\default' (maybe you meant '\\qmldefault'?)",
          ""⟩], [])) ∧
    applyCommand R dloc n COMMAND_INGROUP [] =
      some (n, [⟨dloc, "The \\ingroup command is ignored in QML files", ""⟩], []) := by
  refine ⟨rfl, rfl, rfl, ?_, fun h => ?_, fun h => ?_, ?_⟩
  · unfold applyCommand
    rw [if_neg (by decide), if_neg (by decide), if_neg (by decide),
      if_neg (by decide), if_neg (by decide), if_neg (by decide),
      if_neg (by decide), if_neg (by decide), if_neg (by decide),
      if_neg (by decide), if_neg (by decide), if_neg (by decide),
      if_neg (by decide), if_pos rfl]
    rfl
  · unfold applyCommand
    rw [if_neg (by decide), if_neg (by decide), if_neg (by decide),
      if_neg (by decide), if_neg (by decide), if_neg (by decide),
      if_pos rfl, if_pos h]
    rfl
  · unfold applyCommand
    rw [if_neg (by decide), if_neg (by decide), if_neg (by decide),
      if_neg (by decide), if_pos rfl, if_pos h]
    rfl
  · unfold applyCommand
    rw [if_neg (by decide), if_neg (by decide), if_neg (by decide),
      if_neg (by decide), if_neg (by decide), if_neg (by decide),
      if_neg (by decide), if_neg (by decide), if_neg (by decide),
      if_neg (by decide), if_neg (by decide), if_neg (by decide),
      if_neg (by decide), if_neg (by decide), if_neg (by decide)]
    rfl

/-- Witness for the amended C5 on a property node. -/
theorem empty_args_behavior_witness :
    applyCommand (fun _ _ => false) ⟨"file.qml", 3, 1⟩ nodeP
      COMMAND_DEPRECATED [] = none ∧
    applyCommand (fun _ _ => false) ⟨"file.qml", 3, 1⟩ nodeP
      COMMAND_QMLENUMERATORSFROM [] = none ∧
    applyCommand (fun _ _ => false) ⟨"file.qml", 3, 1⟩ nodeP
      COMMAND_DEFAULT [] =
      some (nodeP, [⟨⟨"file.qml", 3, 1⟩,
        "Expected an argument for '\\default' (maybe you meant '\\qmldefault'?)",
        ""⟩], []) :=
  ⟨(empty_args_behavior _ _ _).1,
   (empty_args_behavior _ _ _).2.2.2.2.1 (by decide),
   (empty_args_behavior _ _ _).2.2.2.2.2.1 (by decide)⟩

/-- C9: `\qmlinherits` with an argument equal to the node's own name warns
about self-inheritance and leaves the node (in particular its base-type
name) completely unchanged; with a different argument on a type node it
sets the base-type name to the argument (lines 367-374). -/
theorem qmlinherits_behavior (R : String → String → Bool) (dloc : Loc)
    (n : Node) (a b : String) (rest : List (String × String)) :
    (a = n.name →
      applyCommand R dloc n COMMAND_QMLINHERITS ((a, b) :: rest) =
        some (n, [⟨dloc, a ++ " tries to inherit itself", ""⟩], [])) ∧
    (a ≠ n.name → n.kind = .qmlType →
      applyCommand R dloc n COMMAND_QMLINHERITS ((a, b) :: rest) =
        some ({ n with qmlBaseName := a }, [], [])) := by
  constructor
  · intro h
    unfold applyCommand
    rw [if_neg (by decide), if_neg (by decide), if_neg (by decide), if_pos rfl]
    show (if n.name = a then _ else _) = _
    rw [if_pos h.symm]
  · intro h hk
    unfold applyCommand
    rw [if_neg (by decide), if_neg (by decide), if_neg (by decide), if_pos rfl]
    show (if n.name = a then _ else _) = _
    rw [if_neg (fun he => h he.symm),
      if_pos (show n.isQmlType = true by rw [Node.isQmlType, hk]; rfl)]

/-- Witness for C9 on a concrete type node named "T": self-inheritance is
rejected with a warning; inheriting "Base" sets the base-type name. -/
theorem qmlinherits_behavior_witness :
    applyCommand (fun _ _ => false) ⟨"file.qml", 3, 1⟩ nodeT
      COMMAND_QMLINHERITS [("T", "")] =
      some (nodeT, [⟨⟨"file.qml", 3, 1⟩, "T tries to inherit itself", ""⟩], []) ∧
    applyCommand (fun _ _ => false) ⟨"file.qml", 3, 1⟩ nodeT
      COMMAND_QMLINHERITS [("Base", "")] =
      some ({ nodeT with qmlBaseName := "Base" }, [], []) :=
  ⟨by
    have h := (qmlinherits_behavior (fun _ _ => false) ⟨"file.qml", 3, 1⟩ nodeT
      "T" "" []).1 (by decide)
    simpa using h,
   by
    have h := (qmlinherits_behavior (fun _ _ => false) ⟨"file.qml", 3, 1⟩ nodeT
      "Base" "" []).2 (by decide) (by decide)
    simpa using h⟩

/-! ### Token stream (modelled from the spec)

The `Tokenizer` of tokenizer.h/cpp is external to this file; the spec
describes it as "a token stream over the signature text" whose type grammar
uses identifier, primitive-keyword, qualifier (`&`, `*`, `const`, `^`),
scope-separator (`::`), bracket, parenthesis, comma and equals tokens, with
paren/bracket depth counters maintained as tokens are fetched. -/

inductive TkKind where
  | ident
  | number
  | kwVoid
  | kwInt
  | kwChar
  | kwDouble
  | kwSigned
  | kwUnsigned
  | kwShort
  | kwLong
  | kwInt64
  | kwConst
  | gulbrandsen
  | ampersand
  | aster
  | caret
  | equal
  | comma
  | lparen
  | rparen
  | lbracket
  | rbracket
  | ellipsis
  | eoi
deriving DecidableEq

structure Token where
  kind : TkKind
  lex : String
deriving DecidableEq

/-- Modelled from the spec: keyword recognition of the external tokenizer
(the primitive keywords and qualifiers named by the spec's type grammar). -/
def keywordTok (w : String) : Token :=
  if w = "void" then ⟨.kwVoid, w⟩
  else if w = "int" then ⟨.kwInt, w⟩
  else if w = "char" then ⟨.kwChar, w⟩
  else if w = "double" then ⟨.kwDouble, w⟩
  else if w = "signed" then ⟨.kwSigned, w⟩
  else if w = "unsigned" then ⟨.kwUnsigned, w⟩
  else if w = "short" then ⟨.kwShort, w⟩
  else if w = "long" then ⟨.kwLong, w⟩
  else if w = "int64" then ⟨.kwInt64, w⟩
  else if w = "const" then ⟨.kwConst, w⟩
  else ⟨.ident, w⟩

/-- Modelled from the spec: the external tokenizer, as a character scanner.
Blanks separate tokens; words are identifiers or keywords; digit runs are
number literals; `::`, `...` and the single-character symbols of the grammar
are their own tokens; any other character is skipped.  The fuel argument is
the remaining character count (each step consumes at least one character). -/
def tokenizeAux : Nat → List Char → List Token
  | 0, _ => []
  | _, [] => []
  | fuel + 1, c :: rest =>
    if c == ' ' then tokenizeAux fuel rest
    else if c.isAlpha || c == '_' then
      let w := c :: rest.takeWhile (fun d => d.isAlphanum || d == '_')
      keywordTok (String.mk w) ::
        tokenizeAux fuel (rest.dropWhile (fun d => d.isAlphanum || d == '_'))
    else if c.isDigit then
      ⟨.number, String.mk (c :: rest.takeWhile Char.isDigit)⟩ ::
        tokenizeAux fuel (rest.dropWhile Char.isDigit)
    else if c == ':' && rest.headD ' ' == ':' then
      ⟨.gulbrandsen, "::"⟩ :: tokenizeAux fuel rest.tail
    else if c == '.' && rest.take 2 == ['.', '.'] then
      ⟨.ellipsis, "..."⟩ :: tokenizeAux fuel (rest.drop 2)
    else if c == '&' then ⟨.ampersand, "&"⟩ :: tokenizeAux fuel rest
    else if c == '*' then ⟨.aster, "*"⟩ :: tokenizeAux fuel rest
    else if c == '^' then ⟨.caret, "^"⟩ :: tokenizeAux fuel rest
    else if c == '=' then ⟨.equal, "="⟩ :: tokenizeAux fuel rest
    else if c == ',' then ⟨.comma, ","⟩ :: tokenizeAux fuel rest
    else if c == '(' then ⟨.lparen, "("⟩ :: tokenizeAux fuel rest
    else if c == ')' then ⟨.rparen, ")"⟩ :: tokenizeAux fuel rest
    else if c == '[' then ⟨.lbracket, "["⟩ :: tokenizeAux fuel rest
    else if c == ']' then ⟨.rbracket, "]"⟩ :: tokenizeAux fuel rest
    else tokenizeAux fuel rest

def tokenize (s : String) : List Token :=
  tokenizeAux s.data.length s.data

/-! ### Code chunks

`CodeChunk` (codechunk.h/cpp) is external to this file; it is modelled from
the spec as the list of appended lexemes, rendered with a space between two
word lexemes and before a reference/pointer qualifier, matching the spec's
expected renderings (`"const Bar &"`, `"Bar(1,2)"`).  `appendHotspot` only
marks a display position and has no effect on the rendered text. -/

def isWordChar (c : Char) : Bool := c.isAlphanum || c == '_'

def chunkSep (a b : String) : String :=
  if (match a.data.getLast? with | some c => isWordChar c | none => false)
     && (match b.data.head? with | some c => isWordChar c | none => false) then " "
  else if b = "&" || b = "*" || b = "^" then " "
  else ""

def chunkToString : List String → String
  | [] => ""
  | [x] => x
  | x :: y :: rest => x ++ chunkSep x y ++ chunkToString (y :: rest)

/-! ### `QmlSignatureParser` (lines 74-94, 190-346)

The parser state bundles the tokenizer (remaining tokens, current token
`tok_`, previous lexeme, paren/bracket depth counters updated as each token
is fetched) with the `FunctionNode` being filled in (`func_`), the collected
qualified-name segments (`names_`) and the signature's location
(`location_`).  Loops are written with a fuel argument; every call site
passes more fuel than there are tokens left, so fuel never runs out on the
paths the C++ loops take. -/

structure SigState where
  rest : List Token
  tok : Token
  prev : String
  parenDepth : Int
  bracketDepth : Int
  func : Node
  names : List String
  sigLoc : Loc
deriving DecidableEq

/-- `readToken()` / `Tokenizer::getToken()`: fetch the next token (end of
input produces `eoi`), remember the previous lexeme, and update the depth
counters as the fetched token is consumed. -/
def spGetToken (s : SigState) : SigState :=
  let next := s.rest.headD ⟨.eoi, ""⟩
  { s with
    rest := s.rest.tail
    tok := next
    prev := s.tok.lex
    parenDepth := s.parenDepth + (if next.kind == .lparen then 1 else 0)
                    - (if next.kind == .rparen then 1 else 0)
    bracketDepth := s.bracketDepth + (if next.kind == .lbracket then 1 else 0)
                      - (if next.kind == .rbracket then 1 else 0) }

/-- `match(int target)` (lines 207-214). -/
def spMatch (t : TkKind) (s : SigState) : Bool × SigState :=
  if s.tok.kind == t then (true, spGetToken s) else (false, s)

/-- `match(a) || match(b) || ...` chains: try each target in order. -/
def matchAnyKw : List TkKind → SigState → Bool × SigState
  | [], s => (false, s)
  | k :: ks, s =>
    let (b, s') := spMatch k s
    if b then (true, s') else matchAnyKw ks s'

/-- The `while (match(Tok_signed) || ... || match(Tok_int64))` loop of
lines 230-234.  Returns the extended type chunk, the state, and the final
`virgin` flag. -/
def sizeKwLoop : Nat → List String → SigState → Bool → List String × SigState × Bool
  | 0, type, s, virgin => (type, s, virgin)
  | fuel + 1, type, s, virgin =>
    let (b, s') := matchAnyKw [.kwSigned, .kwUnsigned, .kwShort, .kwLong, .kwInt64] s
    if b then sizeKwLoop fuel (type ++ [s'.prev]) s' false
    else (type, s, virgin)

/-- The qualifier loop of line 255:
`while (match(Tok_Ampersand) || match(Tok_Aster) || match(Tok_const) || match(Tok_Caret))`. -/
def qualLoop : Nat → List String → SigState → List String × SigState
  | 0, type, s => (type, s)
  | fuel + 1, type, s =>
    let (b, s') := matchAnyKw [.ampersand, .aster, .kwConst, .caret] s
    if b then qualLoop fuel (type ++ [s'.prev]) s'
    else (type, s)

/-- The array-bracket suffix loop of lines 267-274. -/
def bracketLoop (d0 : Int) : Nat → List String → SigState → List String × SigState
  | 0, type, s => (type, s)
  | fuel + 1, type, s =>
    if (s.bracketDepth ≥ d0 && s.tok.kind != .eoi) || s.tok.kind == .rbracket then
      bracketLoop d0 fuel (type ++ [s.tok.lex]) (spGetToken s)
    else (type, s)

/-- The `Alpha::Beta::...` loop of `matchTypeAndName` (lines 226-253). -/
def mtnLoop : Nat → List String → SigState → Option (List String × SigState)
  | 0, _, _ => none
  | fuel + 1, type0, s0 =>
    let (type1, s1, virgin) :=
      if s0.tok.kind != .ident then sizeKwLoop (s0.rest.length + 1) type0 s0 true
      else (type0, s0, true)
    let step : Option (List String × SigState) :=
      if virgin then
        let (b, s2) := spMatch .ident s1
        if b then some (type1 ++ [s2.prev], s2)
        else
          let (b2, s3) := matchAnyKw [.kwVoid, .kwInt, .kwChar, .kwDouble, .ellipsis] s2
          if b2 then some (type1 ++ [s3.prev], s3) else none
      else
        let (b, s2) := matchAnyKw [.kwInt, .kwChar, .kwDouble] s1
        some (if b then type1 ++ [s2.prev] else type1, s2)
    match step with
    | none => none
    | some (type2, s2) =>
      let (g, s3) := spMatch .gulbrandsen s2
      if g then mtnLoop fuel (type2 ++ [s3.prev]) s3
      else some (type2, s3)

/-- `matchTypeAndName(CodeChunk *type, QString *var)` (lines 220-276).
`wantVar` is `var != nullptr`; on success returns the type chunk, the
variable name (empty when none was matched or wanted), and the state.
`none` is the `return false` path: the caller returns false immediately, so
the partially filled chunk and consumed tokens are discarded with it. -/
def matchTypeAndName (wantVar : Bool) (type0 : List String) (s0 : SigState) :
    Option (List String × String × SigState) :=
  match mtnLoop (s0.rest.length + 2) type0 s0 with
  | none => none
  | some (type1, s1) =>
    let (type2, s2) := qualLoop (s1.rest.length + 1) type1 s1
    let (var, s3) :=
      if wantVar then
        let (b, s') := spMatch .ident s2
        if b then (s'.prev, s') else ("", s')
      else ("", s2)
    let (type3, s4) :=
      if s3.tok.kind == .lbracket then
        bracketLoop s3.bracketDepth (s3.rest.length + 2) type2 s3
      else (type2, s3)
    some (type3, var, s4)

/-- The default-value capture loop of lines 293-299: consume lexemes while
the paren depth has not dropped below its starting value, stopping at a
top-level comma or end of input. -/
def spDefaultLoop (d0 : Int) : Nat → List String → SigState → List String × SigState
  | 0, acc, s => (acc, s)
  | fuel + 1, acc, s =>
    if s.parenDepth ≥ d0 && (s.tok.kind != .comma || s.parenDepth > d0)
        && s.tok.kind != .eoi then
      spDefaultLoop d0 fuel (acc ++ [s.tok.lex]) (spGetToken s)
    else (acc, s)

/-- `matchParameter()` (lines 278-303). -/
def matchParameter (s0 : SigState) : Bool × SigState :=
  match matchTypeAndName true [] s0 with
  | none => (false, s0)
  | some (type, name, s1) =>
    let (type, name) :=
      if name = "" then (([] : List String), chunkToString type) else (type, name)
    let (defVal, s2) :=
      let (b, s') := spMatch .equal s1
      if b then spDefaultLoop s'.parenDepth (s'.rest.length + 2) [] s'
      else ([], s')
    let s3 := { s2 with func := { s2.func with parameters :=
      s2.func.parameters ++ [⟨chunkToString type, name, chunkToString defVal⟩] } }
    (true, s3)

/-- The qualified-name loop of lines 316-323: collect `Ident ::` pairs; when
the trailing `::` is absent the last identifier is popped from the name
list and the loop breaks. -/
def namesLoop : Nat → SigState → SigState
  | 0, s => s
  | fuel + 1, s =>
    let (b, s1) := spMatch .ident s
    if b then
      let s2 := { s1 with names := s1.names ++ [s1.prev] }
      let (g, s3) := spMatch .gulbrandsen s2
      if g then namesLoop fuel s3
      else { s3 with names := s3.names.dropLast }
    else s

/-- The `do { matchParameter() } while (match(Tok_Comma))` loop of
lines 338-341. -/
def paramsLoop : Nat → SigState → Bool × SigState
  | 0, s => (false, s)
  | fuel + 1, s =>
    match matchParameter s with
    | (false, s') => (false, s')
    | (true, s') =>
      let (b, s'') := spMatch .comma s'
      if b then paramsLoop fuel s'' else (true, s'')

/-- `matchFunctionDecl()` (lines 305-346). -/
def matchFunctionDecl (signature : String) (s0 : SigState) : Bool × SigState :=
  let firstBlank := indexOfChar signature ' '
  let leftParen := indexOfChar signature '('
  let afterRt : Option (List String × SigState) :=
    if firstBlank > 0 ∧ leftParen - firstBlank > 1 then
      match matchTypeAndName false [] s0 with
      | none => none
      | some (rt, _, s1) => some (rt, s1)
    else some ([], s0)
  match afterRt with
  | none => (false, s0)
  | some (returnType, s1) =>
    let s2 := namesLoop (s1.rest.length + 2) s1
    if s2.tok.kind != .lparen then (false, s2)
    else
      let s3 := spGetToken s2
      let f4 := { s3.func with loc := s3.sigLoc, returnType := chunkToString returnType }
      let s4 := { s3 with func := f4 }
      if s4.tok.kind != .rparen then
        let s5 := { s4 with func := { s4.func with parameters := [] } }
        match paramsLoop (s5.rest.length + 2) s5 with
        | (false, s6) => (false, s6)
        | (true, s6) => spMatch .rparen s6
      else
        spMatch .rparen s4

/-- The `QmlSignatureParser` constructor (lines 190-200): tokenize the
signature, read the first token, run `matchFunctionDecl`.  Returns whether
the declaration matched, the resulting function node, and the collected
qualified-name segments. -/
def runQmlSignature (loc : Loc) (signature : String) (func : Node) :
    Bool × Node × List String :=
  let s0 : SigState :=
    { rest := tokenize signature, tok := ⟨.eoi, ""⟩, prev := "",
      parenDepth := 0, bracketDepth := 0, func := func, names := [], sigLoc := loc }
  let s1 := spGetToken s0
  let (ok, s2) := matchFunctionDecl signature s1
  (ok, s2.func, s2.names)

/-- C2 counterexample: parsing
`"void foo(int a, const Bar &b = Bar(1,2))"` does not produce the two
claimed parameters.  `matchTypeAndName` accepts `const` only after the base
type (line 255), never in front of it (lines 229-246), so the second
parameter fails to parse and only `{int, a, ""}` is recorded. -/
theorem signature_roundtrip_cex :
    (runQmlSignature ⟨"f.qml", 1, 1⟩
        "void foo(int a, const Bar &b = Bar(1,2))" emptyNode).2.1.parameters ≠
      [⟨"int", "a", ""⟩, ⟨"const Bar &", "b", "Bar(1,2)"⟩] := by decide

/-- C2 (amended): on `"void foo(int a, const Bar &b = Bar(1,2))"` the parse
fails at the leading `const` of the second parameter; the node is left with
return type `"void"` and the single parameter `{int, a, ""}`, and the
qualified-name segment list ends empty (the final unqualified identifier
`foo` is consumed and then popped, lines 316-323).  Dropping the leading
`const` (`"void foo(int a, Bar b = g(1,2))"`) parses successfully, and the
default value `"g(1,2)"` is captured across the nested parentheses up to
the top-level closing parenthesis. -/
theorem signature_roundtrip_amended (l : Loc) (f : Node) :
    runQmlSignature l "void foo(int a, const Bar &b = Bar(1,2))" f =
      (false, { f with loc := l, returnType := "void", parameters := [⟨"int", "a", ""⟩] }, ([] : List String)) ∧
    runQmlSignature l "void foo(int a, Bar b = g(1,2))" f =
      (true, { f with loc := l, returnType := "void", parameters := [⟨"int", "a", ""⟩, ⟨"Bar", "b", "g(1,2)"⟩] }, ([] : List String)) :=
  ⟨rfl, rfl⟩

/-- A function node that already carries a signature, used to exhibit the
overwrite. -/
def nodeSig : Node :=
  { emptyNode with kind := .qmlMethod, name := "f", returnType := "int", parameters := [⟨"int", "x", ""⟩] }

/-- C3 counterexample: running the signature parser with the malformed
signature `"foo("` on a node that already has return type `"int"` and one
parameter does not leave the node unchanged: `matchFunctionDecl` overwrites
the return type (line 334) and clears the parameter list (line 337) before
parameter parsing fails. -/
theorem signature_atomicity_cex :
    (runQmlSignature ⟨"f.qml", 1, 1⟩ "foo(" nodeSig).1 = false ∧
    (runQmlSignature ⟨"f.qml", 1, 1⟩ "foo(" nodeSig).2.1 ≠ nodeSig := by decide

/-- C3 (amended): the signature-overwrite step is not atomic.  Once the
opening parenthesis is consumed, the node's location and return type are
overwritten and its parameter list is cleared even when a later parameter
fails to parse — for every starting node, parsing `"foo("` fails and leaves
return type `""` and no parameters.  Only a failure before the opening
parenthesis (e.g. `"123"`) leaves the node untouched. -/
theorem signature_partial_overwrite (l : Loc) (f : Node) :
    runQmlSignature l "foo(" f =
      (false, { f with loc := l, returnType := "", parameters := [] },
       ([] : List String)) ∧
    runQmlSignature l "123" f = (false, f, ([] : List String)) :=
  ⟨rfl, rfl⟩

/-! ### Documentation binder (`QmlDocVisitor::applyDocumentation`,
lines 111-188) -/

/-- Output of `QmlPropertyArguments::parse` (qmlpropertyarguments.h,
external): the parsed property name, type and list flag. -/
structure QpaResult where
  qname : String
  qtype : String
  qisList : Bool
deriving DecidableEq

/-- The external collaborators of the binder, as oracle functions:
`parseTopics`/`parseMetas` model the `Doc` comment-command parser applied to
a comment's text (`doc.topicsUsed()` and the metacommand map);
`qpaParse` models `QmlPropertyArguments::parse(args, loc)`; `findQmlType`
models `QDocDatabase::findQmlTypeInPrimaryTree(qmid, name)`; `resolveEnum`
models the enumeration lookup behind `QmlPropertyNode::setEnumNode`. -/
structure Externals where
  parseTopics : SourceComment → List TopicDecl
  parseMetas : SourceComment → List (String × List (String × String))
  qpaParse : String → Loc → Option QpaResult
  findQmlType : String → String → Option Node
  resolveEnum : String → String → Bool

/-- Per-file configuration of the visitor: `m_filePath`, `m_name` (base name
of the file), the engine's comment list, and the topic-name set
`m_topics`. -/
structure Config where
  filePath : String
  name : String
  comments : List SourceComment
  topics : List String

/-- Result of one `applyDocumentation` call: the returned node, the updated
used-comment set, the updated QML property children of the node's parent,
and the emitted warnings and database edits. -/
structure BindResult where
  node : Node
  used : List Nat
  siblings : List Node
  warnings : List Warning
  effects : List DbEffect
deriving DecidableEq

/-- `m_usedComments.insert(loc.offset)` (line 186). -/
def insertUsed (x : Nat) (used : List Nat) : List Nat :=
  if used.contains x then used else x :: used

/-- Lines 134-136: the module identifier from an `\inqmlmodule` argument,
if present. -/
def qmidOf (doc : DocBlock) : String :=
  match doc.metas.find? (fun m => m.1 == COMMAND_INQMLMODULE) with
  | some (_, (a, _) :: _) => a
  | _ => ""

/-- Replace the first list entry satisfying `p` by `v` (pointer-update
semantics for a node found inside its parent's child list). -/
def replaceFirst (p : Node → Bool) (v : Node) : List Node → List Node
  | [] => []
  | x :: xs => if p x then v :: xs else x :: replaceFirst p v xs

/-- `Aggregate::hasQmlProperty(name, attached)` (aggregate.h, external,
modelled from the spec): find a QML property child with the given name and
attached flag. -/
def siblingPred (qname : String) (attached : Bool) (s : Node) : Bool :=
  s.name == qname && s.isAttached == attached

/-- Lines 162-170 applied to a sibling property node `base` (found or
fresh): `setIsList`, `setLocation(doc.location())`, `setDoc(doc)`,
`markReadOnly(primary read-only AND NOT attached)`, and `markDefault()`
when the primary property is marked default. -/
def overrideProp (doc : DocBlock) (primary : Node) (qpa : QpaResult)
    (att : Bool) (base : Node) : Node :=
  if primary.isDefault then
    { base with isList := qpa.qisList, loc := doc.loc, doc := some doc, readOnly := primary.readOnly && !att, isDefault := true }
  else
    { base with isList := qpa.qisList, loc := doc.loc, doc := some doc, readOnly := primary.readOnly && !att }

/-- Line 161: `new QmlPropertyNode(parent, qpa->m_name, qpa->m_type, isAttached)`. -/
def freshSibling (qpa : QpaResult) (att : Bool) : Node :=
  { emptyNode with kind := NodeKind.qmlProperty, name := qpa.qname, dataType := qpa.qtype, isAttached := att }

/-- One iteration of the topic loop (lines 148-181), threading the primary
node, the parent's property children, and the keys of the sibling nodes
appended to the association's result set. -/
def processTopic (E : Externals) (doc : DocBlock) (t : TopicDecl)
    (acc : Node × List Node × List (String × Bool)) :
    Node × List Node × List (String × Bool) :=
  if endsWithStr t.topic "property" then
    match E.qpaParse t.args doc.loc with
    | some qpa =>
      if qpa.qname = acc.1.name then
        ({ acc.1 with dataType := qpa.qtype }, acc.2.1, acc.2.2)
      else
        match acc.2.1.find? (siblingPred qpa.qname (containsSub t.topic "attached")) with
        | some n0 =>
          (acc.1,
            replaceFirst (siblingPred qpa.qname (containsSub t.topic "attached"))
              (overrideProp doc acc.1 qpa (containsSub t.topic "attached") n0) acc.2.1,
            acc.2.2 ++ [(qpa.qname, containsSub t.topic "attached")])
        | none =>
          (acc.1,
            acc.2.1 ++ [overrideProp doc acc.1 qpa (containsSub t.topic "attached")
              (freshSibling qpa (containsSub t.topic "attached"))],
            acc.2.2 ++ [(qpa.qname, containsSub t.topic "attached")])
    | none => acc
  else if endsWithStr t.topic "method" || t.topic == COMMAND_QMLSIGNAL then
    if acc.1.isFunction then
      ((runQmlSignature doc.loc t.args acc.1).2.1, acc.2.1, acc.2.2)
    else acc
  else acc

/-- The metacommand pass over the sibling nodes appended by the topic loop
(the tail of the `nodes` list of line 183), each looked up in and written
back to the parent's child list. -/
def applyExtras (R : String → String → Bool) (topics : List String)
    (doc : DocBlock) :
    List (String × Bool) → List Node →
    Option (List Node × List Warning × List DbEffect)
  | [], siblings => some (siblings, [], [])
  | k :: ks, siblings =>
    match siblings.find? (siblingPred k.1 k.2) with
    | none => applyExtras R topics doc ks siblings
    | some s =>
      match applyMetacommands R topics doc s with
      | none => none
      | some (s', w, e) =>
        match applyExtras R topics doc ks (replaceFirst (siblingPred k.1 k.2) s' siblings) with
        | none => none
        | some (sib', w', e') => some (sib', w ++ w', e ++ e')

/-- Lines 126-130: the `Doc` built from the found comment (the comment text
handed to the external comment parser is `m_document.mid(loc.offset + 1,
loc.length - 1)`, i.e. the comment body after its marker character; the
parsed topic and metacommand sets come back through the oracles). -/
def docOfComment (cfg : Config) (E : Externals) (c : SourceComment) : DocBlock :=
  { loc := ⟨cfg.filePath, c.startLine, c.startColumn⟩,
    topicsUsed := E.parseTopics c, metas := E.parseMetas c }

/-- Lines 133-146: resolve the node to document (the passed node, or an
existing QML type found via the `\inqmlmodule` module id, or a fresh
`QmlTypeNode`) and attach the doc to it (`node->setDoc(doc)`). -/
def primaryNode (cfg : Config) (E : Externals) (doc : DocBlock)
    (nodeIn : Option Node) : Node :=
  match nodeIn with
  | some n => { n with doc := some doc }
  | none =>
    match E.findQmlType (qmidOf doc) cfg.name with
    | some n => { n with doc := some doc }
    | none => { newQmlType cfg.name with loc := doc.loc, doc := some doc }

/-- The topic loop of lines 147-182 over the whole topic list. -/
def topicPhase (E : Externals) (doc : DocBlock) (node : Node)
    (siblings : List Node) : Node × List Node × List (String × Bool) :=
  doc.topicsUsed.foldl (fun acc t => processTopic E doc t acc) (node, siblings, [])

/-- Lines 183-187: the metacommand pass over the primary node and the
appended siblings, then `m_usedComments.insert(loc.offset)`. -/
def finishPhase (R : String → String → Bool) (topics : List String)
    (doc : DocBlock) (cStart : Nat) (used : List Nat)
    (acc : Node × List Node × List (String × Bool)) : Option BindResult :=
  (applyMetacommands R topics doc acc.1).bind (fun p1 =>
    (applyExtras R topics doc acc.2.2 acc.2.1).bind (fun p2 =>
      some ⟨p1.1, insertUsed cStart used, p2.1, p1.2.1 ++ p2.2.1, p1.2.2 ++ p2.2.2⟩))

/-- The found-comment branch of `applyDocumentation` (lines 126-187). -/
def applyDocForComment (cfg : Config) (E : Externals) (used : List Nat)
    (siblings : List Node) (c : SourceComment) (nodeIn : Option Node) :
    Option BindResult :=
  finishPhase E.resolveEnum cfg.topics (docOfComment cfg E c) c.start used
    (topicPhase E (docOfComment cfg E c)
      (primaryNode cfg E (docOfComment cfg E c) nodeIn) siblings)

/-- `applyDocumentation(location, node)` (lines 111-188).  `used`/`lastEnd`
are the visitor state the call reads; `siblings` are the QML property
children of the (resolved) node's parent; `nodeIn` is the node argument
(`none` models the `nullptr` call from the object-definition visit).
Returns `none` only when a metacommand pass hits the unguarded `args[0]`
of an empty argument list. -/
def applyDocumentation (cfg : Config) (E : Externals) (used : List Nat)
    (lastEnd : Nat) (siblings : List Node) (location : SrcLoc)
    (nodeIn : Option Node) : Option BindResult :=
  match precedingComment cfg.comments used lastEnd location.begin_ with
  | none =>
    let node := match nodeIn with
      | some n => n
      | none => newQmlType cfg.name
    some { node := { node with loc := ⟨cfg.filePath, location.startLine, 0⟩ }, used := used, siblings := siblings, warnings := [], effects := [] }
  | some c => applyDocForComment cfg E used siblings c nodeIn

/-! ### Traversal visits for public members and function declarations
(lines 542-599, 610-637) -/

inductive MemberType where
  | signal
  | property
  | otherMember
deriving DecidableEq

/-- One formal parameter of a `UiPublicMember` signal:
`it->type` (absent modelled as `none`) and `it->name`. -/
structure UiParameter where
  uitype : Option String
  uiname : String
deriving DecidableEq

/-- The fields of a `QQmlJS::AST::UiPublicMember` that the visit reads. -/
structure Member where
  mtype : MemberType
  name : String
  memberTypeStr : String
  parameters : List UiParameter
  isReadonly : Bool
  isDefaultMember : Bool
  requiredValid : Bool
  typeModifier : String
  firstLoc : SrcLoc

/-- The fields of a `QQmlJS::AST::FunctionDeclaration` that the visit reads:
the name and, per formal, the binding identifier and the initializer's
source text when present. -/
structure FormalParam where
  bindingIdent : String
  initText : Option String

structure FuncDecl where
  name : String
  formals : List FormalParam
  firstLoc : SrcLoc

/-- The visitor state the two member visits read and write: the nesting
level, `m_lastEndOffset`, `m_usedComments`, `m_current`, the current type's
QML property children, and its function children created so far. -/
structure VState where
  nestingLevel : Nat
  lastEndOffset : Nat
  used : List Nat
  current : Node
  props : List Node
  funcs : List Node

/-- `visit(UiPublicMember)` (lines 542-591).  Returns the updated state and
the traversal's continue flag; `none` propagates a metacommand
out-of-bounds crash from the binder. -/
def visitPublicMember (cfg : Config) (E : Externals) (st : VState)
    (m : Member) : Option (VState × Bool) :=
  if st.nestingLevel > 1 then some (st, true)
  else
    match m.mtype with
    | .signal =>
      if st.current.isQmlType then
        let params := m.parameters.foldl (fun acc it =>
          let ty := match it.uitype with
            | some t => t
            | none => ""
          if ty ≠ "" ∧ it.uiname ≠ "" then acc ++ [⟨ty, it.uiname, ""⟩] else acc) []
        let newSignal := { emptyNode with kind := NodeKind.qmlSignal, name := m.name, parameters := params }
        match applyDocumentation cfg E st.used st.lastEndOffset st.props m.firstLoc (some newSignal) with
        | none => none
        | some r =>
          some ({ st with used := r.used, props := r.siblings, funcs := st.funcs ++ [r.node] }, true)
      else some (st, true)
    | .property =>
      if st.current.isQmlType then
        let (qmlPropNode, props0) :=
          match st.props.find? (fun s => s.name == m.name) with
          | some n => (n, st.props)
          | none =>
            let fresh := { emptyNode with kind := NodeKind.qmlProperty, name := m.name, dataType := m.memberTypeStr }
            (fresh, st.props ++ [fresh])
        let n1 := { qmlPropNode with readOnly := m.isReadonly }
        let n2 := if m.isDefaultMember then { n1 with isDefault := true } else n1
        let n3 := if m.requiredValid then { n2 with isRequired := true } else n2
        let n4 := { n3 with isList := m.typeModifier == "list" }
        let props1 := replaceFirst (fun s => s.name == m.name) n4 props0
        match applyDocumentation cfg E st.used st.lastEndOffset props1 m.firstLoc (some n4) with
        | none => none
        | some r =>
          some ({ st with used := r.used, props := replaceFirst (fun s => s.name == m.name) r.node r.siblings }, true)
      else some (st, true)
    | .otherMember => some (st, false)

/-- `visit(FunctionDeclaration)` (lines 610-637). -/
def visitFunctionDeclaration (cfg : Config) (E : Externals) (st : VState)
    (fd : FuncDecl) : Option (VState × Bool) :=
  if st.nestingLevel ≤ 1 then
    if st.current.isQmlType then
      let params := fd.formals.map (fun fp =>
        let dv := match fp.initText with
          | some t => t
          | none => ""
        (⟨"", fp.bindingIdent, dv⟩ : Parameter))
      let method := { emptyNode with kind := NodeKind.qmlMethod, name := fd.name, parameters := params }
      match applyDocumentation cfg E st.used st.lastEndOffset st.props fd.firstLoc (some method) with
      | none => none
      | some r =>
        some ({ st with used := r.used, props := r.siblings, funcs := st.funcs ++ [r.node] }, true)
    else some (st, true)
  else some (st, true)

/-! ### Helper lemmas -/

theorem insertUsed_contains (x : Nat) (used : List Nat) :
    (insertUsed x used).contains x = true := by
  unfold insertUsed
  by_cases h : used.contains x = true
  · rw [if_pos h]; exact h
  · rw [if_neg h]; simp

theorem find?_append_none {p : Node → Bool} {l1 l2 : List Node}
    (h : l1.find? p = none) : (l1 ++ l2).find? p = l2.find? p := by
  induction l1 with
  | nil => rfl
  | cons x xs ih =>
    by_cases hp : p x = true
    · rw [List.find?_cons_of_pos _ hp] at h; exact Option.noConfusion h
    · rw [List.find?_cons_of_neg _ hp] at h
      rw [List.cons_append, List.find?_cons_of_neg _ hp]
      exact ih h

theorem find?_replaceFirst {p : Node → Bool} {l : List Node} {s0 v : Node}
    (h : l.find? p = some s0) (hv : p v = true) :
    (replaceFirst p v l).find? p = some v := by
  induction l with
  | nil => rw [List.find?_nil] at h; exact Option.noConfusion h
  | cons x xs ih =>
    by_cases hp : p x = true
    · unfold replaceFirst; rw [if_pos hp]
      exact List.find?_cons_of_pos _ hv
    · unfold replaceFirst; rw [if_neg hp]
      rw [List.find?_cons_of_neg _ hp] at h
      rw [List.find?_cons_of_neg _ hp]
      exact ih h

theorem replaceFirst_self {p : Node → Bool} {l : List Node} {v : Node}
    (h : l.find? p = some v) : replaceFirst p v l = l := by
  induction l with
  | nil => rfl
  | cons x xs ih =>
    by_cases hp : p x = true
    · rw [List.find?_cons_of_pos _ hp] at h
      cases h
      unfold replaceFirst; rw [if_pos hp]
    · rw [List.find?_cons_of_neg _ hp] at h
      unfold replaceFirst; rw [if_neg hp, ih h]

theorem applyMetacommands_no_metas (R : String → String → Bool)
    (topics : List String) (doc : DocBlock) (node : Node)
    (h : doc.metas = []) :
    applyMetacommands R topics doc node = some (node, [], []) := by
  unfold applyMetacommands
  rw [h]
  rfl

theorem applyExtras_no_metas (R : String → String → Bool)
    (topics : List String) (doc : DocBlock) (h : doc.metas = []) :
    ∀ (ks : List (String × Bool)) (siblings : List Node),
      applyExtras R topics doc ks siblings = some (siblings, [], [])
  | [], siblings => rfl
  | k :: ks, siblings => by
    unfold applyExtras
    cases hf : siblings.find? (siblingPred k.1 k.2) with
    | none => exact applyExtras_no_metas R topics doc h ks siblings
    | some s =>
      simp [applyMetacommands_no_metas R topics doc s h, replaceFirst_self hf,
        applyExtras_no_metas R topics doc h ks siblings]

theorem applyDocumentation_found (cfg : Config) (E : Externals)
    (used : List Nat) (lastEnd : Nat) (siblings : List Node)
    (location : SrcLoc) (nodeIn : Option Node) (c : SourceComment)
    (hfind : precedingComment cfg.comments used lastEnd location.begin_ = some c) :
    applyDocumentation cfg E used lastEnd siblings location nodeIn =
      applyDocForComment cfg E used siblings c nodeIn := by
  unfold applyDocumentation
  rw [hfind]

theorem finishPhase_used (R : String → String → Bool) (topics : List String)
    (doc : DocBlock) (cStart : Nat) (used : List Nat)
    (acc : Node × List Node × List (String × Bool)) (r : BindResult)
    (h : finishPhase R topics doc cStart used acc = some r) :
    r.used = insertUsed cStart used := by
  unfold finishPhase at h
  rw [Option.bind_eq_some] at h
  obtain ⟨p1, h1, h⟩ := h
  rw [Option.bind_eq_some] at h
  obtain ⟨p2, h2, h⟩ := h
  cases h
  rfl

theorem finishPhase_no_metas (R : String → String → Bool)
    (topics : List String) (doc : DocBlock) (cStart : Nat) (used : List Nat)
    (acc : Node × List Node × List (String × Bool)) (h : doc.metas = []) :
    finishPhase R topics doc cStart used acc =
      some ⟨acc.1, insertUsed cStart used, acc.2.1, [], []⟩ := by
  unfold finishPhase
  rw [applyMetacommands_no_metas R topics doc acc.1 h]
  simp [applyExtras_no_metas R topics doc h]

theorem applyDocForComment_used (cfg : Config) (E : Externals)
    (used : List Nat) (siblings : List Node) (c : SourceComment)
    (nodeIn : Option Node) (r : BindResult)
    (hres : applyDocForComment cfg E used siblings c nodeIn = some r) :
    r.used = insertUsed c.start used := by
  unfold applyDocForComment at hres
  exact finishPhase_used _ _ _ _ _ _ _ hres

/-! ### Claims C6, C8, C10 -/

/-- C6: when the binder finds a preceding comment and completes, the
comment's start offset is in the resulting used set, and any locator lookup
whose used set contains a comment's start offset never returns that comment
— a comment is bound to at most one node. -/
theorem comment_bound_once (cfg : Config) (E : Externals) (used : List Nat)
    (lastEnd : Nat) (siblings : List Node) (location : SrcLoc)
    (nodeIn : Option Node) (c : SourceComment) (r : BindResult)
    (hfind : precedingComment cfg.comments used lastEnd location.begin_ = some c)
    (hres : applyDocumentation cfg E used lastEnd siblings location nodeIn = some r) :
    r.used.contains c.start = true ∧
    ∀ (comments2 : List SourceComment) (used2 : List Nat) (lastEnd2 offset2 : Nat),
      used2.contains c.start = true →
      precedingComment comments2 used2 lastEnd2 offset2 ≠ some c := by
  constructor
  · rw [applyDocumentation_found cfg E used lastEnd siblings location nodeIn c hfind] at hres
    rw [applyDocForComment_used cfg E used siblings c nodeIn r hres]
    exact insertUsed_contains _ _
  · intro comments2 used2 lastEnd2 offset2 hmem hsome
    unfold precedingComment at hsome
    obtain ⟨_, hu, _⟩ := precedingAux_some hsome
    rw [hmem] at hu
    exact Bool.noConfusion hu

/-- Concrete data for the C6 and C7 witnesses: a single eligible comment at
offsets 20-24. -/
def comment20 : SourceComment := ⟨20, 24, true, ['!'], 2, 1⟩

def cfg0 : Config := ⟨"file.qml", "F", [comment20], []⟩

def ext0 : Externals :=
  ⟨fun _ => [], fun _ => [], fun _ _ => none, fun _ _ => none, fun _ _ => false⟩

/-- Witness for C6: binding the property node at offset 30 consumes the
comment at 20, whose start then blocks any further lookup. -/
theorem comment_bound_once_witness :
    (applyDocumentation cfg0 ext0 [] 5 [] ⟨30, 3⟩ (some nodeP)).map
        (fun r => r.used.contains 20) = some true ∧
    precedingComment [comment20] [20] 5 30 ≠ some comment20 := by
  have h := comment_bound_once cfg0 ext0 [] 5 [] ⟨30, 3⟩ (some nodeP) comment20
    { node := { nodeP with doc := some ⟨⟨"file.qml", 2, 1⟩, [], []⟩ }, used := [20], siblings := [], warnings := [], effects := [] }
    rfl rfl
  exact ⟨congrArg some h.1, h.2 [comment20] [20] 5 30 rfl⟩

/-- C8: a public member (signal or property) and a function declaration
visited while the nesting level is strictly greater than 1 leave the
visitor state completely unchanged — no node is created, no documentation
is bound, no comment is consumed. -/
theorem nesting_gate (cfg : Config) (E : Externals) (st : VState)
    (m : Member) (fd : FuncDecl) (h : 1 < st.nestingLevel) :
    visitPublicMember cfg E st m = some (st, true) ∧
    visitFunctionDeclaration cfg E st fd = some (st, true) := by
  constructor
  · unfold visitPublicMember
    rw [if_pos h]
  · unfold visitFunctionDeclaration
    rw [if_neg (Nat.not_le.mpr h)]

def st2 : VState := ⟨2, 0, [], nodeT, [], []⟩

def member0 : Member := ⟨.property, "p", "int", [], false, false, false, "", ⟨30, 3⟩⟩

def fdecl0 : FuncDecl := ⟨"f", [], ⟨30, 3⟩⟩

/-- Witness for C8 at nesting level 2. -/
theorem nesting_gate_witness :
    visitPublicMember cfg0 ext0 st2 member0 = some (st2, true) ∧
    visitFunctionDeclaration cfg0 ext0 st2 fdecl0 = some (st2, true) :=
  nesting_gate cfg0 ext0 st2 member0 fdecl0 (by decide)

/-- C10: when no preceding comment is found and a node is passed in, the
binder only overwrites the node's source location with a location built
from the construct's start line; everything else — the node's other
attributes, the used-comment set, the sibling list — is unchanged, and no
warning or database edit is produced. -/
theorem no_comment_frame (cfg : Config) (E : Externals) (used : List Nat)
    (lastEnd : Nat) (siblings : List Node) (location : SrcLoc) (n : Node)
    (hnone : precedingComment cfg.comments used lastEnd location.begin_ = none) :
    applyDocumentation cfg E used lastEnd siblings location (some n) =
      some { node := { n with loc := ⟨cfg.filePath, location.startLine, 0⟩ }, used := used, siblings := siblings, warnings := [], effects := [] } := by
  unfold applyDocumentation
  rw [hnone]

/-- Witness for C10: with no comments at all, the binder returns the passed
property node with only its location rewritten. -/
theorem no_comment_frame_witness :
    applyDocumentation ⟨"file.qml", "F", [], []⟩ ext0 [] 0 [] ⟨30, 3⟩ (some nodeP) =
      some { node := { nodeP with loc := ⟨"file.qml", 3, 0⟩ }, used := [], siblings := [], warnings := [], effects := [] } :=
  no_comment_frame ⟨"file.qml", "F", [], []⟩ ext0 [] 0 [] ⟨30, 3⟩ nodeP rfl

/-! ### Claim C7 -/

theorem overrideProp_pred (doc : DocBlock) (primary : Node) (qpa : QpaResult)
    (att : Bool) (base : Node)
    (h : siblingPred qpa.qname att base = true) :
    siblingPred qpa.qname att (overrideProp doc primary qpa att base) = true := by
  unfold overrideProp
  by_cases hd : primary.isDefault = true
  · rw [if_pos hd]; exact h
  · rw [if_neg hd]; exact h

theorem freshSibling_pred (qpa : QpaResult) (att : Bool) :
    siblingPred qpa.qname att (freshSibling qpa att) = true := by
  simp [siblingPred, freshSibling]

theorem overrideProp_fields (doc : DocBlock) (primary : Node) (qpa : QpaResult)
    (att : Bool) (base : Node) :
    (overrideProp doc primary qpa att base).doc = some doc ∧
    (overrideProp doc primary qpa att base).loc = doc.loc ∧
    (overrideProp doc primary qpa att base).isList = qpa.qisList ∧
    (overrideProp doc primary qpa att base).readOnly = (primary.readOnly && !att) ∧
    (primary.isDefault = true → (overrideProp doc primary qpa att base).isDefault = true) := by
  unfold overrideProp
  by_cases hd : primary.isDefault = true
  · rw [if_pos hd]; exact ⟨rfl, rfl, rfl, rfl, fun _ => rfl⟩
  · rw [if_neg hd]; exact ⟨rfl, rfl, rfl, rfl, fun h => absurd h hd⟩

/-- The outcome of the different-name property-topic branch
(lines 157-171). -/
theorem processTopic_override (E : Externals) (doc : DocBlock) (t : TopicDecl)
    (node : Node) (siblings : List Node) (keys : List (String × Bool))
    (qpa : QpaResult)
    (hprop : endsWithStr t.topic "property" = true)
    (hqpa : E.qpaParse t.args doc.loc = some qpa)
    (hne : qpa.qname ≠ node.name) :
    processTopic E doc t (node, siblings, keys) =
      (node,
        (match siblings.find? (siblingPred qpa.qname (containsSub t.topic "attached")) with
         | some n0 =>
           replaceFirst (siblingPred qpa.qname (containsSub t.topic "attached"))
             (overrideProp doc node qpa (containsSub t.topic "attached") n0) siblings
         | none =>
           siblings ++ [overrideProp doc node qpa (containsSub t.topic "attached")
             (freshSibling qpa (containsSub t.topic "attached"))]),
        keys ++ [(qpa.qname, containsSub t.topic "attached")]) := by
  unfold processTopic
  simp only [hprop, if_true, hqpa]
  rw [if_neg hne]
  cases hf : siblings.find? (siblingPred qpa.qname (containsSub t.topic "attached")) with
  | none => rfl
  | some n0 => rfl

/-- The `Doc` carrying a single topic declaration and no metacommands. -/
def docSingle (cfg : Config) (c : SourceComment) (t : TopicDecl) : DocBlock :=
  ⟨⟨cfg.filePath, c.startLine, c.startColumn⟩, [t], []⟩

/-- C7: when a primary property node's documentation comment declares one
property-kind topic naming a different property, the binder finds or
creates that sibling property under the primary's parent (keyed by name and
attached variant), attaches the same documentation block and its location,
copies the list flag, sets the sibling's read-only flag to the primary's
read-only flag AND NOT attached, and marks the sibling default whenever the
primary is marked default. -/
theorem property_override_sibling (cfg : Config) (E : Externals)
    (used : List Nat) (lastEnd : Nat) (siblings : List Node)
    (location : SrcLoc) (n : Node) (c : SourceComment) (t : TopicDecl)
    (qpa : QpaResult) (r : BindResult)
    (hfind : precedingComment cfg.comments used lastEnd location.begin_ = some c)
    (_hkind : n.kind = NodeKind.qmlProperty)
    (htop : E.parseTopics c = [t])
    (hmeta : E.parseMetas c = [])
    (hprop : endsWithStr t.topic "property" = true)
    (hqpa : E.qpaParse t.args (docSingle cfg c t).loc = some qpa)
    (hne : qpa.qname ≠ n.name)
    (hres : applyDocumentation cfg E used lastEnd siblings location (some n) = some r) :
    r.node = { n with doc := some (docSingle cfg c t) } ∧
    ∃ s, r.siblings.find? (siblingPred qpa.qname (containsSub t.topic "attached")) = some s ∧
      s.doc = some (docSingle cfg c t) ∧
      s.loc = (docSingle cfg c t).loc ∧
      s.isList = qpa.qisList ∧
      s.readOnly = (n.readOnly && !(containsSub t.topic "attached")) ∧
      (n.isDefault = true → s.isDefault = true) := by
  rw [applyDocumentation_found cfg E used lastEnd siblings location (some n) c hfind] at hres
  unfold applyDocForComment at hres
  have hdoc : docOfComment cfg E c = docSingle cfg c t := by
    unfold docOfComment docSingle
    rw [htop, hmeta]
  rw [hdoc] at hres
  have htp : topicPhase E (docSingle cfg c t)
      (primaryNode cfg E (docSingle cfg c t) (some n)) siblings =
      processTopic E (docSingle cfg c t) t
        ({ n with doc := some (docSingle cfg c t) }, siblings, []) := rfl
  rw [htp] at hres
  rw [processTopic_override E (docSingle cfg c t) t
    { n with doc := some (docSingle cfg c t) } siblings [] qpa hprop hqpa hne] at hres
  rw [finishPhase_no_metas E.resolveEnum cfg.topics (docSingle cfg c t)
    c.start used _ rfl] at hres
  cases hres
  refine ⟨rfl, ?_⟩
  cases hfound : siblings.find? (siblingPred qpa.qname (containsSub t.topic "attached")) with
  | none =>
    refine ⟨overrideProp (docSingle cfg c t) { n with doc := some (docSingle cfg c t) }
      qpa (containsSub t.topic "attached")
      (freshSibling qpa (containsSub t.topic "attached")), ?_, ?_, ?_, ?_, ?_, ?_⟩
    · show (BindResult.siblings _).find? _ = _
      simp only [hfound]
      rw [find?_append_none hfound]
      exact List.find?_cons_of_pos _ (overrideProp_pred _ _ _ _ _ (freshSibling_pred qpa _))
    · exact (overrideProp_fields _ _ _ _ _).1
    · exact (overrideProp_fields _ _ _ _ _).2.1
    · exact (overrideProp_fields _ _ _ _ _).2.2.1
    · exact (overrideProp_fields _ _ _ _ _).2.2.2.1
    · exact (overrideProp_fields _ _ _ _ _).2.2.2.2
  | some s0 =>
    refine ⟨overrideProp (docSingle cfg c t) { n with doc := some (docSingle cfg c t) }
      qpa (containsSub t.topic "attached") s0, ?_, ?_, ?_, ?_, ?_, ?_⟩
    · show (BindResult.siblings _).find? _ = _
      simp only [hfound]
      exact find?_replaceFirst hfound
        (overrideProp_pred _ _ _ _ _ (List.find?_some hfound))
    · exact (overrideProp_fields _ _ _ _ _).1
    · exact (overrideProp_fields _ _ _ _ _).2.1
    · exact (overrideProp_fields _ _ _ _ _).2.2.1
    · exact (overrideProp_fields _ _ _ _ _).2.2.2.1
    · exact (overrideProp_fields _ _ _ _ _).2.2.2.2

def t7 : TopicDecl := ⟨"qmlproperty", "string other"⟩

def qpa7 : QpaResult := ⟨"other", "string", false⟩

def ext7 : Externals :=
  ⟨fun _ => [t7], fun _ => [], fun _ _ => some qpa7, fun _ _ => none, fun _ _ => false⟩

def n7 : Node :=
  { emptyNode with kind := NodeKind.qmlProperty, name := "self", readOnly := true, isDefault := true }

def r7 : BindResult :=
  ⟨{ n7 with doc := some (docSingle cfg0 comment20 t7) }, [20],
   [{ emptyNode with kind := NodeKind.qmlProperty, name := "other", dataType := "string", loc := ⟨"file.qml", 2, 1⟩, doc := some (docSingle cfg0 comment20 t7), readOnly := true, isDefault := true }],
   [], []⟩

/-- Witness for C7: the comment on read-only default property "self"
declares a `\qmlproperty` topic for "other"; the binder creates the sibling
"other" carrying the same doc, read-only (inherited, not attached) and
default. -/
theorem property_override_sibling_witness :
    r7.node = { n7 with doc := some (docSingle cfg0 comment20 t7) } ∧
    ∃ s, r7.siblings.find? (siblingPred qpa7.qname (containsSub t7.topic "attached")) = some s ∧
      s.doc = some (docSingle cfg0 comment20 t7) ∧
      s.loc = (docSingle cfg0 comment20 t7).loc ∧
      s.isList = qpa7.qisList ∧
      s.readOnly = (n7.readOnly && !(containsSub t7.topic "attached")) ∧
      (n7.isDefault = true → s.isDefault = true) :=
  property_override_sibling cfg0 ext7 [] 5 [] ⟨30, 3⟩ n7 comment20 t7 qpa7 r7
    rfl rfl rfl rfl (by decide) rfl (by decide) rfl

/-- Witness instantiating the amended C2 statement at a concrete location
and starting node. -/
theorem signature_roundtrip_amended_witness :
    runQmlSignature ⟨"f.qml", 1, 1⟩ "void foo(int a, const Bar &b = Bar(1,2))" emptyNode =
      (false, { emptyNode with loc := ⟨"f.qml", 1, 1⟩, returnType := "void", parameters := [⟨"int", "a", ""⟩] }, ([] : List String)) ∧
    runQmlSignature ⟨"f.qml", 1, 1⟩ "void foo(int a, Bar b = g(1,2))" emptyNode =
      (true, { emptyNode with loc := ⟨"f.qml", 1, 1⟩, returnType := "void", parameters := [⟨"int", "a", ""⟩, ⟨"Bar", "b", "g(1,2)"⟩] }, ([] : List String)) :=
  signature_roundtrip_amended ⟨"f.qml", 1, 1⟩ emptyNode

/-- Witness instantiating the amended C3 statement at a concrete location
and starting node. -/
theorem signature_partial_overwrite_witness :
    runQmlSignature ⟨"f.qml", 1, 1⟩ "foo(" nodeSig =
      (false, { nodeSig with loc := ⟨"f.qml", 1, 1⟩, returnType := "", parameters := [] }, ([] : List String)) ∧
    runQmlSignature ⟨"f.qml", 1, 1⟩ "123" nodeSig = (false, nodeSig, ([] : List String)) :=
  signature_partial_overwrite ⟨"f.qml", 1, 1⟩ nodeSig

end QmlVisitor
